import Mathlib

set_option maxRecDepth 100000

/-!
# Verification of `Data_preprocessing.py`

A shallow embedding of the data-preprocessing script and proofs about it.

The script manipulates pandas DataFrames.  We model a DataFrame as a list of
named columns; each cell is either missing (`none`, pandas `NaN`) or holds a
value (`Val.num` for a number, modelled by `ℚ`; `Val.str` for a Python string).
Row position in the cell list corresponds to the positional index of the frame
(the script only ever builds frames whose index is `0, 1, 2, …` in order, so
label-based alignment coincides with positional alignment shifted by the label
offset; where an alignment offset matters it is modelled explicitly).

The pandas semantics relevant here (the script was written for the
`writer.save()` era of pandas, i.e. pandas < 2.0):
  * `df[name] = series` aligns the series to `df`'s index: rows of `df` whose
    label is absent from the series become `NaN`, series labels absent from
    `df` are dropped; if `name` already exists the column is replaced in
    place, otherwise it is appended at the end.
  * arithmetic on cells: `NaN` propagates; an operation that touches a string
    raises `TypeError`.
  * `DataFrame.mean(axis=1)` (default `skipna=True`, `numeric_only=None`):
    first attempts a row-wise `nanmean` over the values of every selected
    column; if that raises `TypeError` (a string value participates) it falls
    back to the numeric-dtype columns only.  A row's mean is the sum of its
    present (non-`NaN`) numeric values divided by their count, `NaN` when no
    value is present.  We model "numeric dtype" as "the column contains no
    string cell", which agrees with the real dtypes on every table this
    pipeline builds (the only string ever stored is the `"BG"` label, and
    storing it upcasts its column to `object` dtype).
  * `df.loc[-1, :] = row` raises `ValueError` when `row`'s length differs
    from the number of columns.
  * `pd.read_csv(path, sep="\t", names=["Pixel", "value"])` raises if the
    file cannot be opened, raises `EmptyDataError` on an empty file, parses
    numeric fields as numbers and keeps other fields as strings, pads rows
    that are shorter than the expected width with `NaN`, and raises
    `ParserError` when a row is wider than the expected width (the width of
    the first row, but at least the two supplied names).  When the first row
    is wider than the two names, the surplus leading fields become the row
    index, so the `Pixel`/`value` columns always take the last two fields.
-/

/-- A Python value stored in a cell: a number (floats/ints modelled as `ℚ`)
or a string. -/
inductive Val where
  | num : ℚ → Val
  | str : String → Val
deriving DecidableEq, Repr

/-- A cell of a DataFrame: `none` is pandas `NaN` (missing). -/
abbrev Cell := Option Val

/-- A DataFrame column: its name and its cells in row order. -/
abbrev Column := String × List Cell

/-- A DataFrame: columns in order.  Row `r` of column `j` is `(t[j]).2[r]`. -/
abbrev Table := List Column

/-- Number of rows of the frame's index (the length of its first column; all
frames built by the script keep every column at the index's length). -/
def nrows (t : Table) : Nat :=
  (t.head?.map (fun c => c.2.length)).getD 0

/-- The cells of column `j` (empty when out of range). -/
def colAt (t : Table) (j : Nat) : List Cell :=
  ((t[j]?).map Prod.snd).getD []

/-- The cell of column `j` at row `r` (missing when out of range). -/
def cellAt (t : Table) (j r : Nat) : Cell :=
  ((colAt t j)[r]?).join

/-- Positional column access, `df.iloc[:, j]`: raises `IndexError` when out
of range. -/
def getCol (t : Table) (j : Nat) : Except String (List Cell) :=
  match t[j]? with
  | some c => .ok c.2
  | none => .error "IndexError"

/-- Embeds `df[name] = cells`: replace the column in place when the name exists,
append it at the end otherwise. -/
def setCol (t : Table) (name : String) (cells : List Cell) : Table :=
  if t.any (fun c => c.1 = name) then
    t.map (fun c => if c.1 = name then (name, cells) else c)
  else t ++ [(name, cells)]

/-- Align a series produced from rows `0, 1, …` to a frame with `n` index
rows: rows past the series' end become missing. -/
def alignRows (n : Nat) (cells : List Cell) : List Cell :=
  (List.range n).map (fun i => (cells[i]?).join)

/-- Cell subtraction as pandas performs it: `NaN` propagates, a string
operand raises `TypeError`. -/
def cellSub : Cell → Cell → Except String Cell
  | some (Val.str _), _ => .error "TypeError"
  | _, some (Val.str _) => .error "TypeError"
  | some (Val.num a), some (Val.num b) => .ok (some (Val.num (a - b)))
  | _, _ => .ok none

/-- The pure value of `cellSub` on string-free cells. -/
def cellSubP : Cell → Cell → Cell
  | some (Val.num a), some (Val.num b) => some (Val.num (a - b))
  | _, _ => none

/-- Element-wise subtraction of two equally-indexed series. -/
def seriesSub (xs ys : List Cell) : Except String (List Cell) :=
  (xs.zip ys).mapM (fun p => cellSub p.1 p.2)

/-- Is the cell a string value? -/
def cellIsStr : Cell → Bool
  | some (Val.str _) => true
  | _ => false

/-- Does the column hold any string cell?  On the tables this script builds
this is exactly "the column has pandas `object` dtype". -/
def colHasStr (c : Column) : Bool := c.2.any cellIsStr

/-- The numeric payload of a cell, if any. -/
def cellNum : Cell → Option ℚ
  | some (Val.num q) => some q
  | _ => none

/-- pandas row-wise `nanmean`: mean of the present numeric values, missing
when none is present. -/
def rowMean (cells : List Cell) : Cell :=
  let present := cells.filterMap cellNum
  if present.length = 0 then none
  else some (Val.num (present.sum / (present.length : ℚ)))

/-- Embeds `sel.mean(axis=1)` with pandas defaults (`skipna=True`,
`numeric_only=None`): attempt the row-wise mean over every selected column;
when a string value would raise `TypeError`, fall back to the numeric-dtype
(string-free) columns only.  `n` is the frame's row count. -/
def dfRowMean (sel : Table) (n : Nat) : List Cell :=
  let sel2 := if sel.any colHasStr then sel.filter (fun c => !colHasStr c) else sel
  (List.range n).map (fun r => rowMean (sel2.map (fun c => ((c.2[r]?).join))))

/-- The content of one `.asc` file: `none` when the file cannot be opened,
otherwise the rows, each a list of tab-separated fields (numeric fields
already converted to numbers, everything else kept as a string). -/
abbrev AscFile := Option (List (List Val))

/-- Embeds `asc_read` (source lines 29–39): `pd.read_csv(file_path, sep="\t",
names=["Pixel", "value"])`.  See the header comment for the modelled
`read_csv` semantics. -/
def asc_read (file : AscFile) : Except String Table :=
  match file with
  | none => .error "FileNotFoundError"
  | some [] => .error "EmptyDataError"
  | some (r0 :: rest) =>
    let w := max r0.length 2
    if (r0 :: rest).all (fun row => row.length ≤ w) then
      .ok [("Pixel", (r0 :: rest).map (fun row => row[w-2]?)),
           ("value", (r0 :: rest).map (fun row => row[w-1]?))]
    else .error "ParserError"

/-- Embeds `add_run_numbers` (source lines 42–56): build
`run_numbers = [None, "BG"] + [1, …, ncols-2]` and insert it as a new first
row via `df.loc[-1, :] = run_numbers` (which raises `ValueError` when the
list's length is not the number of columns), then shift and sort the index
so the new row sits at index 0. -/
def add_run_numbers (dataframe : Table) : Except String Table :=
  let run_numbers : List Cell :=
    [none, some (Val.str "BG")] ++
      (List.range (dataframe.length - 2)).map
        (fun k => some (Val.num ((k + 1 : ℕ) : ℚ)))
  if run_numbers.length = dataframe.length then
    .ok (List.zipWith (fun rn c => (c.1, rn :: c.2)) run_numbers dataframe)
  else .error "ValueError"

/-- A directory listing, in `os.listdir` order: each entry is a file name
with the file's content. -/
abbrev Directory := List (String × AscFile)

/-- Embeds `filename.endswith(".asc")` (source line 75): the name's last four
characters are `.asc`. -/
def isAscFile (name : String) : Bool :=
  name.data.reverse.take 4 = ['c', 's', 'a', '.']

/-- The initial `Pixel` column: the integers `1, …, 1024` (source lines
69–71). -/
def pixelCol : List Cell :=
  (List.range 1024).map (fun i => some (Val.num ((i + 1 : ℕ) : ℚ)))

/-- Embeds `iterate_over_runs` (source lines 59–82): start from a `Pixel` column
holding `1, …, 1024`; for each listed file whose name ends in `".asc"`, read
it and assign its second column (`asc_file.iloc[:, 1]`) as a new column named
by the file name (aligned to the frame's 1024-row index); finally add the
run-number label row. -/
def iterate_over_runs (directory : Directory) : Except String Table := do
  let init : Table := [("Pixel", pixelCol)]
  let df ← directory.foldlM
    (fun df entry =>
      if isAscFile entry.1 then do
        let asc ← asc_read entry.2
        let vcol ← getCol asc 1
        pure (setCol df entry.1 (alignRows (nrows df) vcol))
      else pure df)
    init
  add_run_numbers df

/-- The column name `"Run: {}".format(i)` (source line 95). -/
def runName (i : Nat) : String := "Run: " ++ toString i

/-- One appended column of `subtract_background`:
`df.iloc[1:, i+1] - df.iloc[1:, 1]`, a series over rows `1, …`; prepending a
leading missing cell realigns it to the frame's index `0, 1, …` (row 0, the
label row, gets `NaN`).  Reads come from the table `g` bound to the
process-wide variable `df`. -/
def runColumn (g : Table) (i : Nat) : Except String (List Cell) := do
  let ca ← getCol g (i + 1)
  let cb ← getCol g 1
  let vals ← seriesSub (ca.drop 1) (cb.drop 1)
  pure (none :: vals)

/-- The pure value of `runColumn` on string-free data. -/
def runColumnP (g : Table) (i : Nat) : List Cell :=
  none :: (((colAt g (i + 1)).drop 1).zip ((colAt g 1).drop 1)).map
    (fun p => cellSubP p.1 p.2)

/-- One iteration of `subtract_background`'s loop body for loop counter
`i = k + 1`, in the aliased situation of the main loop where the process-wide
`df` is the very table being extended: reads see the columns appended so
far. -/
def subtractStep (cur : Table) (k : Nat) : Except String Table := do
  let vals ← runColumn cur (k + 1)
  pure (setCol cur (runName (k + 1)) (alignRows (nrows cur) vals))

/-- Embeds `subtract_background` (source lines 85–99) as invoked by the main loop
(source lines 150–163), where the process-wide variable `df` holds the same
table as the parameter `dataframe`.  The loop runs once per column of the
snapshot `dataframe.iloc[:, 2:]` — `ncols - 2` times — appending
`"Run: 1", "Run: 2", …`; it returns the table with the final loop counter
minus one, i.e. the number of appended columns. -/
def subtract_background (dataframe : Table) : Except String (Table × Nat) := do
  let n := dataframe.length - 2
  let t ← (List.range n).foldlM subtractStep dataframe
  pure (t, n)

/-- Embeds `subtract_background` when the process-wide variable `df` is bound to a
table `g` other than the parameter (the general reading of source line 96,
`dataframe[column_name] = df.iloc[1:, i+1] - df.iloc[1:, 1]`): the loop count
comes from the parameter, every value comes from `g`. -/
def subtract_background_with_global (dataframe g : Table) :
    Except String (Table × Nat) := do
  let n := dataframe.length - 2
  let t ← (List.range n).foldlM
    (fun cur k => do
      let vals ← runColumn g (k + 1)
      pure (setCol cur (runName (k + 1)) (alignRows (nrows cur) vals)))
    dataframe
  pure (t, n)

/-- Embeds `get_averaged_data_column` (source lines 102–113):
`dataframe["Mean"] = dataframe.iloc[:, -number_of_runs:].mean(axis=1)`.
Python slice semantics: `-0` is `0`, so `number_of_runs = 0` selects every
column; otherwise the last `number_of_runs` columns are selected. -/
def get_averaged_data_column (dataframe : Table) (number_of_runs : Nat) : Table :=
  let sel := if number_of_runs = 0 then dataframe
             else dataframe.drop (dataframe.length - number_of_runs)
  setCol dataframe "Mean" (dfRowMean sel (nrows dataframe))

/-- The body of the main loop (source lines 150–163) for one experiment
folder, up to `set_index("Pixel")`: aggregate, annotate, subtract, average. -/
def process_folder (directory : Directory) : Except String Table := do
  let df ← iterate_over_runs directory
  let st ← subtract_background df
  pure (get_averaged_data_column st.1 st.2)

def subSpec (t : Table) (n : Nat) : Table :=
  t ++ (List.range n).map
    (fun k => (runName (k + 1), alignRows (nrows t) (runColumnP t (k + 1))))

/-- Hypothesis bundle for the subtraction lemmas: the table is nonempty with
at least two columns, no data cell (rows `1, …` of columns `1, …`) is a
string, no existing column is named like an appended one, and the appended
names are pairwise distinct (a fact of decimal printing, taken as a side
condition so that it can be checked by `decide` at any instance). -/
structure SubHyps (t : Table) : Prop where
  h2 : 2 ≤ t.length
  hstr : ∀ c ∈ t.drop 1, ∀ cell ∈ c.2.drop 1, cellIsStr cell = false
  hfresh : ∀ c ∈ t, ∀ k, k < t.length - 2 → c.1 ≠ runName (k + 1)
  hinj : ∀ j, j < t.length - 2 → ∀ k, k < t.length - 2 →
    runName (j + 1) = runName (k + 1) → j = k

/-- The concrete annotated table for the C1 witness: Pixel plus two runs. -/
def C1wt : Table :=
  [("Pixel", none :: List.replicate 1024 (some (Val.num 0))),
   ("a.asc", some (Val.str "BG") :: List.replicate 1024 (some (Val.num 10))),
   ("b.asc", some (Val.num 1) :: List.replicate 1024 (some (Val.num 15)))]

/-- The concrete table for C4: an annotated one-run-file shape with two
subtracted columns, where row 1 is missing in `Run: 1` but present (4) in
`Run: 2`. -/
def C4wt : Table :=
  [("Pixel", none :: (List.range 1024).map (fun i => some (Val.num ((i + 1 : ℕ) : ℚ)))),
   ("r1.asc", some (Val.str "BG") :: List.replicate 1024 (some (Val.num 10))),
   ("Run: 1", none :: none :: List.replicate 1023 (some (Val.num 7))),
   ("Run: 2", none :: some (Val.num 4) :: List.replicate 1023 (some (Val.num 4)))]

/-- The label-row cell that `add_run_numbers` puts at column `j`. -/
def labelCell (j : Nat) : Cell :=
  if j = 0 then none
  else if j = 1 then some (Val.str "BG")
  else some (Val.num ((j - 1 : ℕ) : ℚ))

/-- The columns `subtract_background` appends: `"Run: k"` for
`k = 1, …, n`, each computed from the table `t` alone. -/
def runCols (t : Table) (n : Nat) : Table :=
  (List.range n).map
    (fun k => (runName (k + 1), alignRows (nrows t) (runColumnP t (k + 1))))

/-- The concrete annotated table for the C3 witness. -/
def C3wt : Table :=
  [("Pixel", none :: List.replicate 1024 (some (Val.num 0))),
   ("a.asc", some (Val.str "BG") :: List.replicate 1024 (some (Val.num 10))),
   ("b.asc", some (Val.num 1) :: List.replicate 1024 (some (Val.num 15)))]

/-- The invariant of every annotated experiment table: nonempty, 1025 rows
in every column (one label row plus 1024 data rows), and the `Pixel`
column's data rows hold `1, …, 1024` in order (missing in the label row). -/
def TableInv (t : Table) : Prop :=
  t ≠ [] ∧ (∀ c ∈ t, c.2.length = 1025) ∧
  cellAt t 0 0 = none ∧
  ∀ r : Nat, 1 ≤ r → r ≤ 1024 → cellAt t 0 r = some (Val.num (r : ℚ))

/-- A concrete annotated one-run-file table (Pixel plus a single raw run
whose label cell is `BG` and whose data value is the constant 10). -/
def oneRunTable : Table :=
  [("Pixel", none :: pixelCol),
   ("r.asc", some (Val.str "BG") :: List.replicate 1024 (some (Val.num 10)))]

/-! ## Basic lemmas about the embedding -/

theorem mapM_ok {α β : Type} (f : α → Except String β) (g : α → β) :
    ∀ (l : List α), (∀ a ∈ l, f a = .ok (g a)) → l.mapM f = .ok (l.map g) := by
  intro l
  induction l with
  | nil => intro _; rfl
  | cons a l ih =>
    intro h
    rw [List.mapM_cons, h a (by simp), ih (fun x hx => h x (by simp [hx]))]
    rfl

theorem length_alignRows (n : Nat) (cs : List Cell) : (alignRows n cs).length = n := by
  simp [alignRows]

theorem getElem?_alignRows (n : Nat) (cs : List Cell) (r : Nat) :
    (alignRows n cs)[r]? = if r < n then some ((cs[r]?).join) else none := by
  unfold alignRows
  rw [List.getElem?_map]
  by_cases h : r < n
  · rw [List.getElem?_range h]
    simp [h]
  · rw [List.getElem?_eq_none (by simpa using Nat.le_of_not_lt h)]
    simp [h]

theorem mem_alignRows {n : Nat} {cs : List Cell} {cell : Cell}
    (h : cell ∈ alignRows n cs) : cell = none ∨ cell ∈ cs := by
  unfold alignRows at h
  obtain ⟨i, hi, rfl⟩ := List.mem_map.mp h
  cases hcs : cs[i]? with
  | none => simp [hcs]
  | some c =>
    right
    simpa [hcs] using List.getElem?_mem hcs

theorem setCol_of_not_mem {t : Table} {name : String} (cells : List Cell)
    (h : ∀ c ∈ t, c.1 ≠ name) : setCol t name cells = t ++ [(name, cells)] := by
  unfold setCol
  rw [if_neg]
  simp only [List.any_eq_true, decide_eq_true_eq, not_exists]
  intro c hc
  exact h c hc.1 hc.2

theorem setCol_append_of_not_mem {t s : Table} {name : String} (cells : List Cell)
    (h : ∀ c ∈ t, c.1 ≠ name) :
    setCol (t ++ s) name cells = t ++ setCol s name cells := by
  have ht : t.any (fun c => c.1 = name) = false := by
    simp only [List.any_eq_false, decide_eq_true_eq]
    exact h
  unfold setCol
  rw [List.any_append, ht, Bool.false_or]
  by_cases hs : s.any (fun c => c.1 = name)
  · rw [if_pos hs, if_pos hs, List.map_append]
    congr 1
    calc t.map (fun c => if c.1 = name then (name, cells) else c)
        = t.map id := List.map_congr_left (fun c hc => by simp [h c hc])
      _ = t := List.map_id t
  · rw [if_neg hs, if_neg hs, List.append_assoc]

theorem mem_setCol {t : Table} {name : String} {cells : List Cell} {c : Column}
    (h : c ∈ setCol t name cells) : c ∈ t ∨ c = (name, cells) := by
  unfold setCol at h
  split at h
  · obtain ⟨d, hd, hdc⟩ := List.mem_map.mp h
    by_cases hdn : d.1 = name
    · right
      rw [if_pos hdn] at hdc
      exact hdc.symm
    · left
      rw [if_neg hdn] at hdc
      exact hdc ▸ hd
  · rcases List.mem_append.mp h with h1 | h2
    · exact Or.inl h1
    · exact Or.inr (List.mem_singleton.mp h2)

theorem nrows_append (t s : Table) (h : t ≠ []) : nrows (t ++ s) = nrows t := by
  cases t with
  | nil => exact absurd rfl h
  | cons c t => rfl

theorem getElem?_zero_setCol {t : Table} {name : String} {cells : List Cell}
    (hne : t ≠ []) (h : ∀ c ∈ t, c.1 ≠ name) :
    (setCol t name cells)[0]? = t[0]? := by
  rw [setCol_of_not_mem cells h]
  cases t with
  | nil => exact absurd rfl hne
  | cons c t => simp

theorem nrows_setCol {t : Table} {name : String} {cells : List Cell}
    (hne : t ≠ []) (h : ∀ c ∈ t, c.1 ≠ name) :
    nrows (setCol t name cells) = nrows t := by
  rw [setCol_of_not_mem cells h, nrows_append t _ hne]

theorem cellSub_eq_ok {a b : Cell} (ha : cellIsStr a = false) (hb : cellIsStr b = false) :
    cellSub a b = .ok (cellSubP a b) := by
  match a, b with
  | some (Val.str _), _ => simp [cellIsStr] at ha
  | some (Val.num _), some (Val.str _) => simp [cellIsStr] at hb
  | none, some (Val.str _) => simp [cellIsStr] at hb
  | some (Val.num _), some (Val.num _) => rfl
  | some (Val.num _), none => rfl
  | none, some (Val.num _) => rfl
  | none, none => rfl

theorem cellIsStr_cellSubP (a b : Cell) : cellIsStr (cellSubP a b) = false := by
  match a, b with
  | some (Val.num _), some (Val.num _) => rfl
  | some (Val.str _), _ => rfl
  | some (Val.num _), some (Val.str _) => rfl
  | some (Val.num _), none => rfl
  | none, _ => rfl

theorem ok_bind {α β : Type} (a : α) (f : α → Except String β) :
    (Except.ok a >>= f) = f a := rfl

theorem error_bind {α β : Type} (e : String) (f : α → Except String β) :
    (Except.error e >>= f) = Except.error e := rfl

theorem getCol_eq_ok {t : Table} {j : Nat} (h : j < t.length) :
    getCol t j = .ok (colAt t j) := by
  unfold getCol colAt
  rw [List.getElem?_eq_getElem h]
  rfl

theorem getCol_append {t : Table} (s : Table) {j : Nat} (h : j < t.length) :
    getCol (t ++ s) j = getCol t j := by
  unfold getCol
  rw [List.getElem?_append_left h]

theorem colAt_append {t : Table} (s : Table) {j : Nat} (h : j < t.length) :
    colAt (t ++ s) j = colAt t j := by
  unfold colAt
  rw [List.getElem?_append_left h]

theorem cellIsStr_mem_runColumnP {g : Table} {i : Nat} {cell : Cell}
    (h : cell ∈ runColumnP g i) : cellIsStr cell = false := by
  unfold runColumnP at h
  rcases List.mem_cons.mp h with h0 | hm
  · rw [h0]; rfl
  · obtain ⟨p, _, rfl⟩ := List.mem_map.mp hm
    exact cellIsStr_cellSubP p.1 p.2

theorem runColumn_eq_ok {t : Table} {i : Nat} (h1 : 1 < t.length) (hi : i + 1 < t.length)
    (hstr : ∀ p ∈ ((colAt t (i + 1)).drop 1).zip ((colAt t 1).drop 1),
      cellIsStr p.1 = false ∧ cellIsStr p.2 = false) :
    runColumn t i = .ok (runColumnP t i) := by
  unfold runColumn
  rw [getCol_eq_ok hi, ok_bind, getCol_eq_ok h1, ok_bind]
  unfold seriesSub
  rw [mapM_ok _ (fun p => cellSubP p.1 p.2) _
    (fun p hp => cellSub_eq_ok (hstr p hp).1 (hstr p hp).2), ok_bind]
  rfl

/-! ## The effect of `subtract_background`

`subSpec t n` is the table `t` with the `n` columns `"Run: 1" … "Run: n"`
appended, each computed from `t` alone (`runColumnP`).  The fold lemma below
shows that the aliased loop of `subtract_background` produces exactly this:
although the loop reads through the process-wide `df`, which already holds
the previously appended columns, it only ever reads column positions
`1` and `i + 1 ≤ ncols - 1`, which lie in the original table. -/

theorem SubHyps.hne {t : Table} (h : SubHyps t) : t ≠ [] := by
  intro he
  rw [he] at h
  exact absurd h.h2 (by simp)

theorem colAt_mem_drop_one {t : Table} {j : Nat} (h1 : 1 ≤ j) (h2 : j < t.length) :
    (t[j]).2 ∈ (t.drop 1).map Prod.snd := by
  apply List.mem_map_of_mem
  have hd : (t.drop 1)[j - 1]? = some (t[j]) := by
    rw [List.getElem?_drop]
    have h1j : 1 + (j - 1) = j := by omega
    rw [h1j, List.getElem?_eq_getElem h2]
  exact List.getElem?_mem hd

theorem runColumn_ok_of_hyps {t : Table} (h : SubHyps t) {k : Nat}
    (hk : k < t.length - 2) : runColumn t (k + 1) = .ok (runColumnP t (k + 1)) := by
  have hlen1 : 1 < t.length := by omega
  have hlen2 : k + 2 < t.length := by omega
  apply runColumn_eq_ok hlen1 (by omega : k + 1 + 1 < t.length)
  intro p hp
  have hmem := List.of_mem_zip hp
  constructor
  · have hcol : colAt t (k + 1 + 1) = (t[k + 2]).2 := by
      unfold colAt
      rw [List.getElem?_eq_getElem hlen2]
      rfl
    have hc2 : (t[k + 2]).2 ∈ (t.drop 1).map Prod.snd := colAt_mem_drop_one (by omega) hlen2
    obtain ⟨c, hc, hceq⟩ := List.mem_map.mp hc2
    apply h.hstr c hc
    rw [hceq]
    have := hmem.1
    rw [hcol] at this
    exact this
  · have hcol : colAt t 1 = (t[1]).2 := by
      unfold colAt
      rw [List.getElem?_eq_getElem hlen1]
      rfl
    have hc2 : (t[1]).2 ∈ (t.drop 1).map Prod.snd := colAt_mem_drop_one (by omega) hlen1
    obtain ⟨c, hc, hceq⟩ := List.mem_map.mp hc2
    apply h.hstr c hc
    rw [hceq]
    have := hmem.2
    rw [hcol] at this
    exact this

theorem subSpec_fresh {t : Table} (h : SubHyps t) {m : Nat} (hm : m < t.length - 2) :
    ∀ c ∈ subSpec t m, c.1 ≠ runName (m + 1) := by
  intro c hc
  rcases List.mem_append.mp hc with hct | hcm
  · exact h.hfresh c hct m hm
  · obtain ⟨j, hj, rfl⟩ := List.mem_map.mp hcm
    rw [List.mem_range] at hj
    intro heq
    exact absurd (h.hinj j (by omega) m hm heq) (by omega)

theorem subtractStep_subSpec {t : Table} (h : SubHyps t) {m : Nat}
    (hm : m < t.length - 2) :
    subtractStep (subSpec t m) m = .ok (subSpec t (m + 1)) := by
  have hne := h.hne
  have hrc : runColumn (subSpec t m) (m + 1) = runColumn t (m + 1) := by
    unfold runColumn subSpec
    rw [getCol_append _ (by omega : m + 1 + 1 < t.length),
      getCol_append _ (by omega : 1 < t.length)]
  unfold subtractStep
  rw [hrc, runColumn_ok_of_hyps h hm, ok_bind]
  have hnr : nrows (subSpec t m) = nrows t := nrows_append _ _ hne
  rw [hnr, setCol_of_not_mem _ (subSpec_fresh h hm)]
  unfold subSpec
  rw [List.range_succ, List.map_append, List.append_assoc]
  rfl

theorem foldlM_subtractStep {t : Table} (h : SubHyps t) :
    ∀ m, m ≤ t.length - 2 →
      (List.range m).foldlM subtractStep t = .ok (subSpec t m) := by
  intro m
  induction m with
  | zero =>
    intro _
    show Except.ok t = _
    unfold subSpec
    rw [List.range_zero, List.map_nil, List.append_nil]
  | succ m ih =>
    intro hm
    rw [List.range_succ, List.foldlM_append, ih (by omega), ok_bind]
    show subtractStep (subSpec t m) m >>= _ = _
    rw [subtractStep_subSpec h (by omega), ok_bind]
    rfl

theorem subtract_background_eq {t : Table} (h : SubHyps t) :
    subtract_background t = .ok (subSpec t (t.length - 2), t.length - 2) := by
  unfold subtract_background
  show ((List.range (t.length - 2)).foldlM subtractStep t >>= fun t' =>
    pure (t', t.length - 2)) = _
  rw [foldlM_subtractStep h (t.length - 2) (Nat.le_refl _), ok_bind]
  rfl

theorem length_subSpec (t : Table) (n : Nat) :
    (subSpec t n).length = t.length + n := by
  simp [subSpec]

theorem getElem?_subSpec_left {t : Table} (n : Nat) {j : Nat} (h : j < t.length) :
    (subSpec t n)[j]? = t[j]? := by
  unfold subSpec
  rw [List.getElem?_append_left h]

theorem getElem?_subSpec_right {t : Table} {n k : Nat} (hk : k < n) :
    (subSpec t n)[t.length + k]? =
      some (runName (k + 1), alignRows (nrows t) (runColumnP t (k + 1))) := by
  unfold subSpec
  rw [List.getElem?_append_right (by omega), List.getElem?_map]
  have : t.length + k - t.length = k := by omega
  rw [this, List.getElem?_range hk]
  rfl

theorem cellAt_subSpec_run {t : Table} {n k r : Nat} (hk : k < n) (hr : r < nrows t) :
    cellAt (subSpec t n) (t.length + k) r = ((runColumnP t (k + 1))[r]?).join := by
  unfold cellAt colAt
  rw [getElem?_subSpec_right hk]
  show ((alignRows (nrows t) (runColumnP t (k + 1)))[r]?).join = _
  rw [getElem?_alignRows, if_pos hr]
  rfl

theorem cellSubP_none_left (b : Cell) : cellSubP none b = none := by
  cases b with
  | none => rfl
  | some v => cases v <;> rfl

theorem cellSubP_none_right (a : Cell) : cellSubP a none = none := by
  cases a with
  | none => rfl
  | some v => cases v <;> rfl

theorem join_getElem?_runColumnP (g : Table) (i s : Nat) :
    ((runColumnP g i)[s + 1]?).join =
      cellSubP (cellAt g (i + 1) (s + 1)) (cellAt g 1 (s + 1)) := by
  unfold runColumnP cellAt
  rw [List.getElem?_cons_succ, List.getElem?_map]
  show ((List.zipWith Prod.mk _ _)[s]?.map _).join = _
  rw [List.getElem?_zipWith]
  rw [List.getElem?_drop, List.getElem?_drop]
  have h1s : 1 + s = s + 1 := by omega
  rw [h1s]
  cases hx : (colAt g (i + 1))[s + 1]? with
  | none => cases hy : (colAt g 1)[s + 1]? <;> simp [cellSubP_none_left]
  | some x =>
    cases hy : (colAt g 1)[s + 1]? with
    | none => simp [cellSubP_none_right]
    | some y => simp

theorem colHasStr_runCol (t : Table) (k n : Nat) :
    colHasStr (runName (k + 1), alignRows n (runColumnP t (k + 1))) = false := by
  unfold colHasStr
  rw [List.any_eq_false]
  intro cell hcell
  rcases mem_alignRows hcell with h0 | hm
  · rw [h0]
    simp [cellIsStr]
  · rw [cellIsStr_mem_runColumnP hm]
    simp

theorem runName_ne_mean (i : Nat) : runName i ≠ "Mean" := by
  intro h
  have : (runName i).length = ("Mean" : String).length := by rw [h]
  unfold runName at this
  rw [String.length_append] at this
  have h5 : ("Run: " : String).length = 5 := rfl
  have h4 : ("Mean" : String).length = 4 := rfl
  omega

theorem rowMean_map_num (vs : List ℚ) (hne : vs ≠ []) :
    rowMean (vs.map (fun q => some (Val.num q))) =
      some (Val.num (vs.sum / (vs.length : ℚ))) := by
  unfold rowMean
  rw [List.filterMap_map]
  have hcomp : cellNum ∘ (fun q : ℚ => some (Val.num q)) = some := rfl
  rw [hcomp, List.filterMap_some]
  rw [if_neg (by simpa using hne)]

theorem exists_map_num {L : List Cell} (h : ∀ x ∈ L, ∃ q : ℚ, x = some (Val.num q)) :
    ∃ vs : List ℚ, L = vs.map (fun q => some (Val.num q)) := by
  induction L with
  | nil => exact ⟨[], rfl⟩
  | cons a L ih =>
    obtain ⟨q, hq⟩ := h a (by simp)
    obtain ⟨vs, hvs⟩ := ih (fun x hx => h x (by simp [hx]))
    exact ⟨q :: vs, by simp [hq, hvs]⟩

theorem nrows_eq {t : Table} {L : Nat} (hne : t ≠ [])
    (hrows : ∀ c ∈ t, c.2.length = L) : nrows t = L := by
  cases t with
  | nil => exact absurd rfl hne
  | cons c t => exact hrows c (List.mem_cons_self c t)

/-! ## Claim theorems -/

/-- Claim C1: for every experiment table with `N ≥ 2` run columns, when
`subtract_background` is invoked as in the main loop (the process-wide `df`
is the same table as the input — which is what `subtract_background`
embeds), the appended column `Run: k` at every data row `r ∈ 1..1024` equals
the `(k+1)`-th raw run column (table position `k + 1`) minus the first raw
run column (position `1`, the background) at that row.  The appended column
`Run: k` sits at position `N + k`; the call returns `N - 1` as the count. -/
theorem C1_background_subtraction (t : Table) (N : Nat) (hN : 2 ≤ N)
    (ht : t.length = N + 1)
    (hrows : ∀ c ∈ t, c.2.length = 1025)
    (hstr : ∀ c ∈ t.drop 1, ∀ cell ∈ c.2.drop 1, cellIsStr cell = false)
    (hfresh : ∀ c ∈ t, ∀ k, k < N - 1 → c.1 ≠ runName (k + 1))
    (hinj : ∀ j, j < N - 1 → ∀ k, k < N - 1 → runName (j + 1) = runName (k + 1) → j = k) :
    ∃ t', subtract_background t = .ok (t', N - 1) ∧
      ∀ k, 1 ≤ k → k ≤ N - 1 → ∀ r, 1 ≤ r → r ≤ 1024 → ∀ a b : ℚ,
        cellAt t (k + 1) r = some (Val.num a) →
        cellAt t 1 r = some (Val.num b) →
        cellAt t' (N + k) r = some (Val.num (a - b)) := by
  have hlen2 : t.length - 2 = N - 1 := by omega
  have hyps : SubHyps t := by
    refine ⟨by omega, hstr, ?_, ?_⟩
    · rw [hlen2]; exact hfresh
    · rw [hlen2]; exact hinj
  refine ⟨subSpec t (N - 1), ?_, ?_⟩
  · have := subtract_background_eq hyps
    rw [hlen2] at this
    exact this
  · intro k hk1 hk2 r hr1 hr2 a b ha hb
    have hnr : nrows t = 1025 := nrows_eq hyps.hne hrows
    have hpos : N + k = t.length + (k - 1) := by omega
    rw [hpos]
    rw [cellAt_subSpec_run (by omega : k - 1 < N - 1) (by omega : r < nrows t)]
    have hk' : k - 1 + 1 = k := by omega
    rw [hk']
    have hr' : r = (r - 1) + 1 := by omega
    rw [hr', join_getElem?_runColumnP]
    rw [← hr', ha, hb]
    rfl

/-- Membership in a constant-tail column. -/
theorem mem_cons_replicate {v0 v cell : Cell} {n : Nat}
    (h : cell ∈ v0 :: List.replicate n v) : cell = v0 ∨ cell = v := by
  rcases List.mem_cons.mp h with h0 | hm
  · exact Or.inl h0
  · exact Or.inr (List.eq_of_mem_replicate hm)

/-- Closed witness for `C1_background_subtraction`: a three-column annotated
table (Pixel, background run of constant 10, second run of constant 15). -/
theorem C1_background_subtraction_witness :
    ∃ t', subtract_background C1wt = .ok (t', 1) ∧
      ∀ k, 1 ≤ k → k ≤ 1 → ∀ r, 1 ≤ r → r ≤ 1024 → ∀ a b : ℚ,
        cellAt C1wt (k + 1) r = some (Val.num a) →
        cellAt C1wt 1 r = some (Val.num b) →
        cellAt t' (2 + k) r = some (Val.num (a - b)) := by
  apply C1_background_subtraction C1wt 2 (by omega) (by rfl)
  · intro c hc
    simp only [C1wt, List.mem_cons, List.not_mem_nil, or_false] at hc
    rcases hc with rfl | rfl | rfl <;> simp
  · intro c hc cell hcell
    simp only [C1wt, List.drop_succ_cons, List.drop_zero, List.mem_cons,
      List.not_mem_nil, or_false] at hc
    rcases hc with rfl | rfl <;>
    · simp only [List.drop_succ_cons, List.drop_zero] at hcell
      rw [List.eq_of_mem_replicate hcell]
      rfl
  · intro c hc k hk
    have hk0 : k = 0 := by omega
    subst hk0
    simp only [C1wt, List.mem_cons, List.not_mem_nil, or_false] at hc
    rcases hc with rfl | rfl | rfl <;> decide
  · intro j hj k hk _
    omega

/-- Claim C2: the appended columns of `subtract_background` are computed from the
process-wide variable `df` (the second argument of
`subtract_background_with_global`), not from the input parameter: two calls
with the identical input table but different bindings of the global `df`
append different column values, so the result is not a function of the
input table alone. -/
theorem C2_global_dependence :
    ∃ t1 t2 : Table,
      subtract_background_with_global
          [("Pixel", [none, some (Val.num 1)]),
           ("a.asc", [some (Val.str "BG"), some (Val.num 5)]),
           ("b.asc", [some (Val.num 1), some (Val.num 8)])]
          [("Pixel", [none, some (Val.num 1)]),
           ("a.asc", [some (Val.str "BG"), some (Val.num 5)]),
           ("b.asc", [some (Val.num 1), some (Val.num 8)])] = .ok (t1, 1) ∧
      subtract_background_with_global
          [("Pixel", [none, some (Val.num 1)]),
           ("a.asc", [some (Val.str "BG"), some (Val.num 5)]),
           ("b.asc", [some (Val.num 1), some (Val.num 8)])]
          [("Pixel", [none, some (Val.num 1)]),
           ("a.asc", [some (Val.str "BG"), some (Val.num 2)]),
           ("b.asc", [some (Val.num 1), some (Val.num 9)])] = .ok (t2, 1) ∧
      cellAt t1 3 1 = some (Val.num 3) ∧
      cellAt t2 3 1 = some (Val.num 7) ∧
      cellAt t1 3 1 ≠ cellAt t2 3 1 := by
  refine ⟨_, _, rfl, rfl, ?_, ?_, ?_⟩
  · show some (Val.num (8 - 5)) = some (Val.num 3)
    norm_num
  · show some (Val.num (9 - 2)) = some (Val.num 7)
    norm_num
  · show some (Val.num (8 - 5)) ≠ some (Val.num (9 - 2))
    simp only [ne_eq, Option.some.injEq, Val.num.injEq]
    norm_num

/-- Fold helper: a directory with no `.asc` entries leaves the frame
untouched. -/
theorem iterate_fold_skip (d : Directory) (h : ∀ e ∈ d, isAscFile e.1 = false) :
    ∀ df : Table,
      d.foldlM (fun df entry =>
        if isAscFile entry.1 then do
          let asc ← asc_read entry.2
          let vcol ← getCol asc 1
          pure (setCol df entry.1 (alignRows (nrows df) vcol))
        else pure df) df = .ok df := by
  induction d with
  | nil => intro df; rfl
  | cons e d ih =>
    intro df
    rw [List.foldlM_cons, if_neg (by simp [h e (by simp)]), pure_bind]
    exact ih (fun x hx => h x (by simp [hx])) df

/-- Claim C5, amended: a folder with zero matching run files does not yield a
`Pixel`-only table — `add_run_numbers` raises a pandas `ValueError` (its
two-element label row `[None, "BG"]` cannot be set on the one-column
table), aborting the run. -/
theorem C5_zero_runs_raises (d : Directory)
    (h : ∀ e ∈ d, isAscFile e.1 = false) :
    iterate_over_runs d = .error "ValueError" := by
  unfold iterate_over_runs
  show (d.foldlM (fun df entry =>
      if isAscFile entry.1 then do
        let asc ← asc_read entry.2
        let vcol ← getCol asc 1
        pure (setCol df entry.1 (alignRows (nrows df) vcol))
      else pure df)
    [("Pixel", pixelCol)] >>= fun df => add_run_numbers df) = .error "ValueError"
  rw [iterate_fold_skip d h, ok_bind]
  rfl

/-- Counterexample to C5 as stated: a folder with a single non-run file
makes `iterate_over_runs` raise (`ValueError` from `add_run_numbers`)
instead of returning a one-column `Pixel` table. -/
theorem C5_counterexample :
    iterate_over_runs [("notes.txt", none)] = .error "ValueError" := by
  rfl

/-- Closed witness for `C5_zero_runs_raises`. -/
theorem C5_zero_runs_raises_witness :
    iterate_over_runs [("readme.md", none), ("data.txt", some [[Val.num 1]])] =
      .error "ValueError" :=
  C5_zero_runs_raises _ (by decide)

/-- Counterexample to C9 as stated: a file containing a non-numeric
value (`"abc"`) in a two-field row is accepted by `asc_read` — the value is
kept as a string — rather than raising. -/
theorem C9_counterexample :
    asc_read (some [[Val.num 1, Val.str "abc"], [Val.num 2, Val.num 5]]) =
      .ok [("Pixel", [some (Val.num 1), some (Val.num 2)]),
           ("value", [some (Val.str "abc"), some (Val.num 5)])] := by
  rfl

/-- Claim C9, amended: `asc_read` propagates failure when the file cannot be
opened, but performs no content validation: a nonempty file whose rows all
have exactly two fields parses successfully whatever the field values are
(a non-numeric field is kept as a string, first field to `Pixel`, second to
`value`), and a row with fewer fields than expected is padded with a
missing value rather than rejected. -/
theorem C9_read_no_content_validation :
    asc_read none = .error "FileNotFoundError" ∧
    (∀ rows : List (List Val), (∀ row ∈ rows, row.length = 2) →
      ∀ r0 rest, rows = r0 :: rest →
      asc_read (some rows) =
        .ok [("Pixel", rows.map (fun row => row[0]?)),
             ("value", rows.map (fun row => row[1]?))]) ∧
    (∀ a : Val, asc_read (some [[a, a], [a]]) =
      .ok [("Pixel", [some a, some a]), ("value", [some a, none])]) := by
  refine ⟨rfl, ?_, ?_⟩
  · intro rows hrows r0 rest hcons
    subst hcons
    have hr0 : r0.length = 2 := hrows r0 (by simp)
    have hall : ((r0 :: rest).all (fun row => decide (row.length ≤ 2))) = true := by
      rw [List.all_eq_true]
      intro row hrow
      simp [hrows row hrow]
    simp only [asc_read, hr0, Nat.max_self, hall, if_true]
  · intro a
    rfl

/-- Closed witness for `C9_read_no_content_validation`. -/
theorem C9_read_no_content_validation_witness :
    asc_read none = .error "FileNotFoundError" ∧
    asc_read (some [[Val.num 1, Val.str "x"], [Val.num 2, Val.num 3]]) =
      .ok [("Pixel", [some (Val.num 1), some (Val.num 2)]),
           ("value", [some (Val.str "x"), some (Val.num 3)])] ∧
    asc_read (some [[Val.str "y", Val.str "y"], [Val.str "y"]]) =
      .ok [("Pixel", [some (Val.str "y"), some (Val.str "y")]),
           ("value", [some (Val.str "y"), none])] :=
  ⟨C9_read_no_content_validation.1,
   C9_read_no_content_validation.2.1 _ (by decide) _ _ rfl,
   C9_read_no_content_validation.2.2 (Val.str "y")⟩

theorem cellAt_append_singleton (t : Table) (name : String) (cells : List Cell) (r : Nat) :
    cellAt (t ++ [(name, cells)]) t.length r = (cells[r]?).join := by
  unfold cellAt colAt
  rw [List.getElem?_append_right (Nat.le_refl t.length), Nat.sub_self]
  rfl

theorem get_averaged_eq (t : Table) (n : Nat) (hn : n ≠ 0)
    (hmean : ∀ c ∈ t, c.1 ≠ "Mean") :
    get_averaged_data_column t n =
      t ++ [("Mean", dfRowMean (t.drop (t.length - n)) (nrows t))] := by
  unfold get_averaged_data_column
  rw [if_neg hn]
  exact setCol_of_not_mem _ hmean

theorem dfRowMean_getElem (sel : Table) (N r : Nat) (hr : r < N)
    (hno : sel.any colHasStr = false) :
    (dfRowMean sel N)[r]? = some (rowMean (sel.map (fun c => ((c.2[r]?).join)))) := by
  unfold dfRowMean
  rw [if_neg (by simp [hno])]
  rw [List.getElem?_map, List.getElem?_range hr]
  rfl

theorem nrows_C4wt : nrows C4wt = 1025 := by
  simp [nrows, C4wt]

theorem hasStr_C4wt_sel : (C4wt.drop 2).any colHasStr = false := by
  rw [List.any_eq_false]
  intro c hc
  simp only [C4wt, List.drop_succ_cons, List.drop_zero, List.mem_cons,
    List.not_mem_nil, or_false] at hc
  rcases hc with rfl | rfl <;>
  · simp only [colHasStr, Bool.not_eq_true, List.any_eq_false]
    intro cell hcell
    rcases List.mem_cons.mp hcell with rfl | hcell2
    · simp [cellIsStr]
    · rcases List.mem_cons.mp hcell2 with rfl | hcell3
      · simp [cellIsStr]
      · rw [List.eq_of_mem_replicate hcell3]
        simp [cellIsStr]

/-- Claim C4, amended: the mean, with pandas's default `skipna=True`, imputes
over missing data: at any row the `Mean` cell is the arithmetic mean of the
*present* numeric values among the `number_of_runs` trailing columns, and it
is missing only when every trailing value at that row is missing — not
whenever at least one is. -/
theorem C4_mean_skips_missing (t : Table) (n : Nat) (hn : 1 ≤ n)
    (hmean : ∀ c ∈ t, c.1 ≠ "Mean")
    (hsel : (t.drop (t.length - n)).any colHasStr = false)
    (r : Nat) (hr : r < nrows t) :
    (((t.drop (t.length - n)).map (fun c => ((c.2[r]?).join))).filterMap cellNum ≠ [] →
      cellAt (get_averaged_data_column t n) t.length r =
        some (Val.num
          ((((t.drop (t.length - n)).map (fun c => ((c.2[r]?).join))).filterMap cellNum).sum /
            ((((t.drop (t.length - n)).map (fun c => ((c.2[r]?).join))).filterMap cellNum).length : ℚ)))) ∧
    (((t.drop (t.length - n)).map (fun c => ((c.2[r]?).join))).filterMap cellNum = [] →
      cellAt (get_averaged_data_column t n) t.length r = none) := by
  rw [get_averaged_eq t n (by omega) hmean, cellAt_append_singleton,
    dfRowMean_getElem _ _ _ hr hsel]
  constructor
  · intro hne
    show rowMean _ = _
    unfold rowMean
    rw [if_neg (by simpa using hne)]
  · intro he
    show rowMean _ = _
    unfold rowMean
    rw [if_pos (by rw [he]; rfl)]

/-- Counterexample to C4 as stated: in `C4wt`, data row 1 has a missing
value in trailing column `Run: 1` (position 2), yet the appended `Mean` at
row 1 is present — the mean of the present values (here `4`), not missing. -/
theorem C4_counterexample :
    cellAt C4wt 2 1 = none ∧
    cellAt (get_averaged_data_column C4wt 2) 4 1 = some (Val.num 4) := by
  constructor
  · rfl
  · show cellAt (get_averaged_data_column C4wt 2) C4wt.length 1 = some (Val.num 4)
    rw [get_averaged_eq C4wt 2 (by omega) (by decide), cellAt_append_singleton,
      show C4wt.length - 2 = 2 from rfl,
      dfRowMean_getElem (C4wt.drop 2) (nrows C4wt) 1 (by rw [nrows_C4wt]; omega)
        hasStr_C4wt_sel]
    show some (Val.num (([4] : List ℚ).sum / (([4] : List ℚ).length : ℚ))) =
      some (Val.num 4)
    norm_num

/-- Closed witness for `C4_mean_skips_missing`, at `C4wt`, row 1. -/
theorem C4_mean_skips_missing_witness :
    (((C4wt.drop (C4wt.length - 2)).map (fun c => ((c.2[1]?).join))).filterMap cellNum ≠ [] →
      cellAt (get_averaged_data_column C4wt 2) C4wt.length 1 =
        some (Val.num
          ((((C4wt.drop (C4wt.length - 2)).map (fun c => ((c.2[1]?).join))).filterMap cellNum).sum /
            ((((C4wt.drop (C4wt.length - 2)).map (fun c => ((c.2[1]?).join))).filterMap cellNum).length : ℚ)))) ∧
    (((C4wt.drop (C4wt.length - 2)).map (fun c => ((c.2[1]?).join))).filterMap cellNum = [] →
      cellAt (get_averaged_data_column C4wt 2) C4wt.length 1 = none) :=
  C4_mean_skips_missing C4wt 2 (by omega) (by decide) hasStr_C4wt_sel 1
    (by rw [nrows_C4wt]; omega)

theorem add_run_numbers_ok {t : Table} (h2 : 2 ≤ t.length) :
    add_run_numbers t = .ok (List.zipWith (fun rn c => (c.1, rn :: c.2))
      ([none, some (Val.str "BG")] ++ (List.range (t.length - 2)).map
        (fun k => some (Val.num ((k + 1 : ℕ) : ℚ)))) t) := by
  unfold add_run_numbers
  rw [if_pos]
  simp only [List.length_append, List.length_cons, List.length_nil,
    List.length_map, List.length_range]
  omega

theorem rn_getElem {L : Nat} (j : Nat) (hj : j < L) :
    ([none, some (Val.str "BG")] ++ (List.range (L - 2)).map
      (fun k => some (Val.num ((k + 1 : ℕ) : ℚ))))[j]? = some (labelCell j) := by
  match j with
  | 0 => rfl
  | 1 =>
    rw [List.getElem?_append_left (by simp)]
    rfl
  | j + 2 =>
    rw [List.getElem?_append_right (by simp)]
    simp only [List.length_cons, List.length_nil]
    rw [show j + 2 - 2 = j from rfl, List.getElem?_map,
      List.getElem?_range (by omega), Option.map_some']
    unfold labelCell
    rw [if_neg (by omega), if_neg (by omega)]
    have hj1 : j + 2 - 1 = j + 1 := by omega
    rw [hj1]

/-- Claim C6: for an aggregated table with `N ≥ 1` runs (`N + 1` columns),
`add_run_numbers` inserts exactly one synthetic row at row index 0 — every
data row shifts to the next index — whose first cell is empty, second cell
the literal label `BG`, and whose cell in run column `j` (for
`2 ≤ j ≤ N`) is the integer `j - 1`: the increasing sequence
`1, 2, …, N - 1` with no gaps, in column order.  Column names, column
count, and all data cells are unchanged. -/
theorem C6_label_row (t : Table) (N : Nat) (hN : 1 ≤ N) (ht : t.length = N + 1) :
    ∃ t', add_run_numbers t = .ok t' ∧ t'.length = N + 1 ∧
      (∀ j : Nat, (t'[j]?).map Prod.fst = (t[j]?).map Prod.fst) ∧
      cellAt t' 0 0 = none ∧
      cellAt t' 1 0 = some (Val.str "BG") ∧
      (∀ j, 2 ≤ j → j ≤ N → cellAt t' j 0 = some (Val.num ((j - 1 : ℕ) : ℚ))) ∧
      (∀ j r, cellAt t' j (r + 1) = cellAt t j r) := by
  have h2 : 2 ≤ t.length := by omega
  have hrnlen : ([none, some (Val.str "BG")] ++ (List.range (t.length - 2)).map
      (fun k => some (Val.num ((k + 1 : ℕ) : ℚ)))).length = t.length := by
    simp only [List.length_append, List.length_cons, List.length_nil,
      List.length_map, List.length_range]
    omega
  have hcol : ∀ j, j < t.length →
      (List.zipWith (fun rn c => (c.1, rn :: c.2))
        ([none, some (Val.str "BG")] ++ (List.range (t.length - 2)).map
          (fun k => some (Val.num ((k + 1 : ℕ) : ℚ)))) t)[j]? =
      (t[j]?).map (fun c => (c.1, labelCell j :: c.2)) := by
    intro j hj
    rw [List.getElem?_zipWith, rn_getElem j hj]
    cases htj : t[j]? with
    | none => rfl
    | some c => rfl
  have hcol' : ∀ j, t.length ≤ j →
      (List.zipWith (fun rn c => (c.1, rn :: c.2))
        ([none, some (Val.str "BG")] ++ (List.range (t.length - 2)).map
          (fun k => some (Val.num ((k + 1 : ℕ) : ℚ)))) t)[j]? = none := by
    intro j hj
    apply List.getElem?_eq_none
    simp only [List.length_zipWith, hrnlen]
    omega
  refine ⟨_, add_run_numbers_ok h2, ?_, ?_, ?_, ?_, ?_, ?_⟩
  · simp only [List.length_zipWith, hrnlen, Nat.min_self]
    omega
  · intro j
    by_cases hj : j < t.length
    · rw [hcol j hj]
      cases htj : t[j]? with
      | none => rfl
      | some c => rfl
    · rw [hcol' j (by omega), List.getElem?_eq_none (by omega : t.length ≤ j)]
  · unfold cellAt colAt
    rw [hcol 0 (by omega), List.getElem?_eq_getElem (by omega : 0 < t.length)]
    simp only [Option.map_some', Option.getD_some, List.getElem?_cons_zero,
      Option.join, Option.some_bind', id_eq]
    exact rfl
  · unfold cellAt colAt
    rw [hcol 1 (by omega), List.getElem?_eq_getElem (by omega : 1 < t.length)]
    simp only [Option.map_some', Option.getD_some, List.getElem?_cons_zero,
      Option.join, Option.some_bind', id_eq]
    exact rfl
  · intro j hj2 hjN
    unfold cellAt colAt
    rw [hcol j (by omega), List.getElem?_eq_getElem (by omega : j < t.length)]
    simp only [Option.map_some', Option.getD_some, List.getElem?_cons_zero,
      Option.join, Option.some_bind', id_eq]
    unfold labelCell
    rw [if_neg (by omega), if_neg (by omega)]
  · intro j r
    unfold cellAt colAt
    by_cases hj : j < t.length
    · rw [hcol j hj, List.getElem?_eq_getElem hj]
      simp only [Option.map_some', Option.getD_some, List.getElem?_cons_succ]
    · rw [hcol' j (by omega), List.getElem?_eq_none (by omega : t.length ≤ j)]
      exact rfl

/-- Closed witness for `C6_label_row`: a three-column aggregate (`N = 2`). -/
theorem C6_label_row_witness :
    ∃ t', add_run_numbers
        [("Pixel", [some (Val.num 1)]), ("a.asc", [some (Val.num 5)]),
         ("b.asc", [some (Val.num 7)])] = .ok t' ∧ t'.length = 2 + 1 ∧
      (∀ j : Nat, (t'[j]?).map Prod.fst =
        ([("Pixel", [some (Val.num 1)]), ("a.asc", [some (Val.num 5)]),
          ("b.asc", [some (Val.num 7)])][j]?).map Prod.fst) ∧
      cellAt t' 0 0 = none ∧
      cellAt t' 1 0 = some (Val.str "BG") ∧
      (∀ j, 2 ≤ j → j ≤ 2 → cellAt t' j 0 = some (Val.num ((j - 1 : ℕ) : ℚ))) ∧
      (∀ j r, cellAt t' j (r + 1) =
        cellAt [("Pixel", [some (Val.num 1)]), ("a.asc", [some (Val.num 5)]),
          ("b.asc", [some (Val.num 7)])] j r) :=
  C6_label_row _ 2 (by omega) rfl

theorem subSpec_def (t : Table) (n : Nat) : subSpec t n = t ++ runCols t n := rfl

theorem length_dfRowMean (sel : Table) (n : Nat) : (dfRowMean sel n).length = n := by
  simp [dfRowMean]

theorem get_averaged_append (t : Table) (n : Nat)
    (hmean : ∀ c ∈ t, c.1 ≠ "Mean") :
    ∃ mcol, get_averaged_data_column t n = t ++ [("Mean", mcol)] ∧
      mcol.length = nrows t := by
  unfold get_averaged_data_column
  exact ⟨_, setCol_of_not_mem _ hmean, length_dfRowMean _ _⟩

/-- Claim C7: for an annotated experiment table `t` with `N ≥ 1` run columns
(`N + 1` columns counting `Pixel`), `subtract_background` returns the count
`N - 1` and appends exactly the `N - 1` columns `runCols t (N - 1)` — named
`"Run: 1", …, "Run: N-1"` and computed by `runColumnP` from the input table
`t` alone, so a newly appended column is never itself a subtraction
source — leaving the `N + 1` original columns (the `N` raw runs) as an
unchanged prefix; `get_averaged_data_column` then appends exactly one
`Mean` column, for a finished width of `(N + 1) + (N - 1) + 1`. -/
theorem C7_column_counts (t : Table) (N : Nat) (hN : 1 ≤ N) (ht : t.length = N + 1)
    (hstr : ∀ c ∈ t.drop 1, ∀ cell ∈ c.2.drop 1, cellIsStr cell = false)
    (hfresh : ∀ c ∈ t, ∀ k, k < N - 1 → c.1 ≠ runName (k + 1))
    (hinj : ∀ j, j < N - 1 → ∀ k, k < N - 1 → runName (j + 1) = runName (k + 1) → j = k)
    (hmean : ∀ c ∈ t, c.1 ≠ "Mean") :
    ∃ mcol, subtract_background t = .ok (t ++ runCols t (N - 1), N - 1) ∧
      (runCols t (N - 1)).length = N - 1 ∧
      (∀ k : Nat, k < N - 1 →
        ((runCols t (N - 1))[k]?).map Prod.fst = some (runName (k + 1))) ∧
      get_averaged_data_column (t ++ runCols t (N - 1)) (N - 1) =
        (t ++ runCols t (N - 1)) ++ [("Mean", mcol)] ∧
      ((t ++ runCols t (N - 1)) ++ [("Mean", mcol)]).length =
        (N + 1) + (N - 1) + 1 := by
  have hlen2 : t.length - 2 = N - 1 := by omega
  have hyps : SubHyps t := by
    refine ⟨by omega, hstr, ?_, ?_⟩
    · rw [hlen2]; exact hfresh
    · rw [hlen2]; exact hinj
  have hmean' : ∀ c ∈ t ++ runCols t (N - 1), c.1 ≠ "Mean" := by
    intro c hc
    rcases List.mem_append.mp hc with hct | hcr
    · exact hmean c hct
    · obtain ⟨k, _, rfl⟩ := List.mem_map.mp hcr
      exact runName_ne_mean (k + 1)
  obtain ⟨mcol, hm, hmlen⟩ := get_averaged_append (t ++ runCols t (N - 1)) (N - 1) hmean'
  refine ⟨mcol, ?_, ?_, ?_, hm, ?_⟩
  · have := subtract_background_eq hyps
    rw [hlen2, subSpec_def] at this
    exact this
  · simp [runCols]
  · intro k hk
    unfold runCols
    rw [List.getElem?_map, List.getElem?_range hk]
    rfl
  · simp only [List.length_append, List.length_cons, List.length_nil, ht]
    simp [runCols]

/-- Closed witness for `C7_column_counts`, at a one-run table (`N = 1`). -/
theorem C7_column_counts_witness :
    ∃ mcol, subtract_background
        [("Pixel", [none, some (Val.num 1)]),
         ("r.asc", [some (Val.str "BG"), some (Val.num 10)])] =
          .ok ([("Pixel", [none, some (Val.num 1)]),
                ("r.asc", [some (Val.str "BG"), some (Val.num 10)])] ++
               runCols [("Pixel", [none, some (Val.num 1)]),
                ("r.asc", [some (Val.str "BG"), some (Val.num 10)])] 0, 0) ∧
      (runCols [("Pixel", [none, some (Val.num 1)]),
        ("r.asc", [some (Val.str "BG"), some (Val.num 10)])] 0).length = 0 ∧
      (∀ k : Nat, k < 0 →
        ((runCols [("Pixel", [none, some (Val.num 1)]),
          ("r.asc", [some (Val.str "BG"), some (Val.num 10)])] 0)[k]?).map Prod.fst =
          some (runName (k + 1))) ∧
      get_averaged_data_column
          ([("Pixel", [none, some (Val.num 1)]),
            ("r.asc", [some (Val.str "BG"), some (Val.num 10)])] ++
           runCols [("Pixel", [none, some (Val.num 1)]),
            ("r.asc", [some (Val.str "BG"), some (Val.num 10)])] 0) 0 =
        ([("Pixel", [none, some (Val.num 1)]),
          ("r.asc", [some (Val.str "BG"), some (Val.num 10)])] ++
         runCols [("Pixel", [none, some (Val.num 1)]),
          ("r.asc", [some (Val.str "BG"), some (Val.num 10)])] 0) ++ [("Mean", mcol)] ∧
      (([("Pixel", [none, some (Val.num 1)]),
         ("r.asc", [some (Val.str "BG"), some (Val.num 10)])] ++
        runCols [("Pixel", [none, some (Val.num 1)]),
         ("r.asc", [some (Val.str "BG"), some (Val.num 10)])] 0) ++
       [("Mean", mcol)]).length = (1 + 1) + (1 - 1) + 1 :=
  C7_column_counts _ 1 (by omega) rfl (by decide) (by decide) (by omega) (by decide)

theorem cellAt_num {t : Table} (hrows : ∀ c ∈ t, c.2.length = 1025)
    (hnum : ∀ c ∈ t.drop 1, ∀ cell ∈ c.2.drop 1, ∃ q : ℚ, cell = some (Val.num q))
    {j r : Nat} (hj1 : 1 ≤ j) (hj : j < t.length) (hr1 : 1 ≤ r) (hr : r ≤ 1024) :
    ∃ q : ℚ, cellAt t j r = some (Val.num q) := by
  have hcol : t[j]? = some (t[j]) := List.getElem?_eq_getElem hj
  have hclen : (t[j]).2.length = 1025 := hrows _ (List.getElem_mem hj)
  have hrlt : r < (t[j]).2.length := by omega
  have hcell : (t[j]).2[r]? = some ((t[j]).2[r]) :=
    List.getElem?_eq_getElem hrlt
  have hcmem : (t[j]) ∈ t.drop 1 := by
    have hd : (t.drop 1)[j - 1]? = some (t[j]) := by
      rw [List.getElem?_drop]
      have h1j : 1 + (j - 1) = j := by omega
      rw [h1j]
      exact hcol
    exact List.getElem?_mem hd
  have hmem2 : (t[j]).2[r] ∈ (t[j]).2.drop 1 := by
    have hd : ((t[j]).2.drop 1)[r - 1]? = some ((t[j]).2[r]) := by
      rw [List.getElem?_drop]
      have h1r : 1 + (r - 1) = r := by omega
      rw [h1r]
      exact hcell
    exact List.getElem?_mem hd
  obtain ⟨q, hq⟩ := hnum _ hcmem _ hmem2
  refine ⟨q, ?_⟩
  unfold cellAt colAt
  rw [hcol]
  show ((t[j]).2[r]?).join = _
  rw [hcell, hq]
  exact rfl

/-- Claim C3: for an annotated experiment table with `N ≥ 2` run columns whose
data cells are all present numbers (the data model's well-formed run files),
the `Mean` cell appended by `get_averaged_data_column` — the column at
position `2N` — at every data row `r ∈ 1..1024` equals the arithmetic mean
of exactly the `N - 1` trailing background-subtracted `Run: k` values at
that row (the columns at positions `N + 1, …, 2N - 1`). -/
theorem C3_mean_of_runs (t : Table) (N : Nat) (hN : 2 ≤ N) (ht : t.length = N + 1)
    (hrows : ∀ c ∈ t, c.2.length = 1025)
    (hnum : ∀ c ∈ t.drop 1, ∀ cell ∈ c.2.drop 1, ∃ q : ℚ, cell = some (Val.num q))
    (hfresh : ∀ c ∈ t, ∀ k, k < N - 1 → c.1 ≠ runName (k + 1))
    (hinj : ∀ j, j < N - 1 → ∀ k, k < N - 1 → runName (j + 1) = runName (k + 1) → j = k)
    (hmean : ∀ c ∈ t, c.1 ≠ "Mean") :
    ∃ t', subtract_background t = .ok (t', N - 1) ∧
      ∀ r, 1 ≤ r → r ≤ 1024 → ∃ vs : List ℚ,
        (List.range (N - 1)).map (fun k => cellAt t' (N + 1 + k) r) =
          vs.map (fun q => some (Val.num q)) ∧
        vs.length = N - 1 ∧
        cellAt (get_averaged_data_column t' (N - 1)) (2 * N) r =
          some (Val.num (vs.sum / ((N - 1 : ℕ) : ℚ))) := by
  have hlen2 : t.length - 2 = N - 1 := by omega
  have hstr : ∀ c ∈ t.drop 1, ∀ cell ∈ c.2.drop 1, cellIsStr cell = false := by
    intro c hc cell hcell
    obtain ⟨q, rfl⟩ := hnum c hc cell hcell
    rfl
  have hyps : SubHyps t := by
    refine ⟨by omega, hstr, ?_, ?_⟩
    · rw [hlen2]; exact hfresh
    · rw [hlen2]; exact hinj
  have hnr : nrows t = 1025 := nrows_eq hyps.hne hrows
  refine ⟨subSpec t (N - 1), ?_, ?_⟩
  · have := subtract_background_eq hyps
    rw [hlen2] at this
    exact this
  · intro r hr1 hr2
    have hcell : ∀ k, k < N - 1 → cellAt (subSpec t (N - 1)) (N + 1 + k) r =
        cellSubP (cellAt t (k + 2) r) (cellAt t 1 r) := by
      intro k hk
      have hp : N + 1 + k = t.length + k := by omega
      rw [hp, cellAt_subSpec_run hk (by rw [hnr]; omega)]
      have hr' : r = (r - 1) + 1 := by omega
      rw [hr', join_getElem?_runColumnP, ← hr']
    have hvals : ∀ x ∈ (List.range (N - 1)).map
        (fun k => cellAt (subSpec t (N - 1)) (N + 1 + k) r),
        ∃ q : ℚ, x = some (Val.num q) := by
      intro x hx
      obtain ⟨k, hkmem, rfl⟩ := List.mem_map.mp hx
      rw [List.mem_range] at hkmem
      rw [hcell k hkmem]
      obtain ⟨a, ha⟩ := cellAt_num hrows hnum (by omega : 1 ≤ k + 2)
        (by omega : k + 2 < t.length) hr1 hr2
      obtain ⟨b, hb⟩ := cellAt_num hrows hnum (by omega : 1 ≤ 1)
        (by omega : 1 < t.length) hr1 hr2
      rw [ha, hb]
      exact ⟨a - b, rfl⟩
    obtain ⟨vs, hvs⟩ := exists_map_num hvals
    have hvslen : vs.length = N - 1 := by
      have hlen := congrArg List.length hvs
      simp only [List.length_map, List.length_range] at hlen
      omega
    refine ⟨vs, hvs, hvslen, ?_⟩
    have hmean' : ∀ c ∈ subSpec t (N - 1), c.1 ≠ "Mean" := by
      intro c hc
      rw [subSpec_def] at hc
      rcases List.mem_append.mp hc with hct | hcr
      · exact hmean c hct
      · obtain ⟨k, _, rfl⟩ := List.mem_map.mp hcr
        exact runName_ne_mean (k + 1)
    rw [show (2 * N) = (subSpec t (N - 1)).length from by rw [length_subSpec]; omega]
    rw [get_averaged_eq _ _ (by omega) hmean', cellAt_append_singleton]
    have hdrop : (subSpec t (N - 1)).drop ((subSpec t (N - 1)).length - (N - 1)) =
        runCols t (N - 1) := by
      rw [length_subSpec, subSpec_def]
      have hd : t.length + (N - 1) - (N - 1) = t.length := by omega
      rw [hd, List.drop_left]
    rw [hdrop]
    have hnr' : nrows (subSpec t (N - 1)) = nrows t := nrows_append _ _ hyps.hne
    rw [hnr', dfRowMean_getElem (runCols t (N - 1)) (nrows t) r (by rw [hnr]; omega)
      (by
        rw [List.any_eq_false]
        intro c hc
        obtain ⟨k, _, rfl⟩ := List.mem_map.mp hc
        simp [colHasStr_runCol])]
    have hmapeq : (runCols t (N - 1)).map (fun c => ((c.2[r]?).join)) =
        (List.range (N - 1)).map
          (fun k => cellAt (subSpec t (N - 1)) (N + 1 + k) r) := by
      unfold runCols
      rw [List.map_map]
      apply List.map_congr_left
      intro k hk
      rw [List.mem_range] at hk
      rw [show N + 1 + k = t.length + k from by omega,
        cellAt_subSpec_run hk (by rw [hnr]; omega)]
      show ((alignRows (nrows t) (runColumnP t (k + 1)))[r]?).join = _
      rw [getElem?_alignRows, if_pos (by rw [hnr]; omega)]
      exact rfl
    rw [hmapeq, hvs, rowMean_map_num vs
      (by
        intro he
        rw [he] at hvslen
        simp at hvslen
        omega), hvslen]
    exact rfl

/-- Closed witness for `C3_mean_of_runs`, at `C3wt` (`N = 2`). -/
theorem C3_mean_of_runs_witness :
    ∃ t', subtract_background C3wt = .ok (t', 1) ∧
      ∀ r, 1 ≤ r → r ≤ 1024 → ∃ vs : List ℚ,
        (List.range 1).map (fun k => cellAt t' (2 + 1 + k) r) =
          vs.map (fun q => some (Val.num q)) ∧
        vs.length = 1 ∧
        cellAt (get_averaged_data_column t' 1) (2 * 2) r =
          some (Val.num (vs.sum / ((1 : ℕ) : ℚ))) := by
  apply C3_mean_of_runs C3wt 2 (by omega) (by rfl)
  · intro c hc
    simp only [C3wt, List.mem_cons, List.not_mem_nil, or_false] at hc
    rcases hc with rfl | rfl | rfl <;> simp
  · intro c hc cell hcell
    simp only [C3wt, List.drop_succ_cons, List.drop_zero, List.mem_cons,
      List.not_mem_nil, or_false] at hc
    rcases hc with rfl | rfl <;>
    · simp only [List.drop_succ_cons, List.drop_zero] at hcell
      rw [List.eq_of_mem_replicate hcell]
      exact ⟨_, rfl⟩
  · intro c hc k hk
    have hk0 : k = 0 := by omega
    subst hk0
    simp only [C3wt, List.mem_cons, List.not_mem_nil, or_false] at hc
    rcases hc with rfl | rfl | rfl <;> decide
  · intro j hj k hk _
    omega
  · intro c hc
    simp only [C3wt, List.mem_cons, List.not_mem_nil, or_false] at hc
    rcases hc with rfl | rfl | rfl <;> decide

/-! ## The C8 invariant -/

theorem pixelCol_length : pixelCol.length = 1024 := by
  simp [pixelCol]

theorem pixelCol_getElem {i : Nat} (h : i < 1024) :
    pixelCol[i]? = some (some (Val.num ((i + 1 : ℕ) : ℚ))) := by
  unfold pixelCol
  rw [List.getElem?_map, List.getElem?_range h]
  rfl

theorem join_pixel_cons {r : Nat} (h1 : 1 ≤ r) (h2 : r ≤ 1024) :
    ((none :: pixelCol)[r]?).join = some (Val.num (r : ℚ)) := by
  have hr : r = (r - 1) + 1 := by omega
  rw [hr, List.getElem?_cons_succ, pixelCol_getElem (by omega)]
  have hc : ((r - 1) + 1 : ℕ) = ((r - 1 : ℕ) + 1 : ℕ) := rfl
  exact rfl

theorem getElem?_zero_of_head {t : Table} {c0 : Column} (h : t[0]? = some c0) :
    0 < t.length := by
  cases t with
  | nil => simp at h
  | cons c t => simp

theorem getElem?_zero_setCol_of_head {t : Table} {name : String} {cells : List Cell}
    {c0 : Column} (h0 : t[0]? = some c0) (hne : c0.1 ≠ name) :
    (setCol t name cells)[0]? = some c0 := by
  unfold setCol
  split
  · rw [List.getElem?_map, h0]
    simp [hne]
  · rw [List.getElem?_append_left (getElem?_zero_of_head h0)]
    exact h0

theorem colAt_zero_of_head {t : Table} {c0 : Column} (h : t[0]? = some c0) :
    colAt t 0 = c0.2 := by
  unfold colAt
  rw [h]
  exact rfl

theorem nrows_of_head {t : Table} {c0 : Column} (h : t[0]? = some c0) :
    nrows t = c0.2.length := by
  cases t with
  | nil => simp at h
  | cons c t =>
    simp only [List.getElem?_cons_zero, Option.some.injEq] at h
    rw [← h]
    rfl

theorem isAscFile_ne_pixel {name : String} (h : isAscFile name = true) :
    name ≠ "Pixel" := by
  intro he
  rw [he] at h
  exact absurd h (by decide)

theorem isAscFile_ne_mean {name : String} (h : isAscFile name = true) :
    name ≠ "Mean" := by
  intro he
  rw [he] at h
  exact absurd h (by decide)

/-- The aggregation fold of `iterate_over_runs` keeps the `Pixel` head
column and the 1024-row column lengths, whatever the directory contains. -/
theorem iterate_fold_inv (d : Directory) :
    ∀ df : Table, df[0]? = some ("Pixel", pixelCol) →
      (∀ c ∈ df, c.2.length = 1024) →
      ∀ out, d.foldlM (fun df entry =>
        if isAscFile entry.1 then do
          let asc ← asc_read entry.2
          let vcol ← getCol asc 1
          pure (setCol df entry.1 (alignRows (nrows df) vcol))
        else pure df) df = .ok out →
      out[0]? = some ("Pixel", pixelCol) ∧ ∀ c ∈ out, c.2.length = 1024 := by
  induction d with
  | nil =>
    intro df h0 hlen out hout
    cases hout
    exact ⟨h0, hlen⟩
  | cons e d ih =>
    intro df h0 hlen out hout
    rw [List.foldlM_cons] at hout
    by_cases hasc : isAscFile e.1 = true
    · rw [if_pos hasc] at hout
      cases hread : asc_read e.2 with
      | error err =>
        rw [hread, error_bind, error_bind] at hout
        exact Except.noConfusion hout
      | ok asc =>
        rw [hread, ok_bind] at hout
        cases hget : getCol asc 1 with
        | error err =>
          rw [hget, error_bind, error_bind] at hout
          exact Except.noConfusion hout
        | ok vcol =>
          rw [hget, ok_bind] at hout
          have hmid0 : (setCol df e.1 (alignRows (nrows df) vcol))[0]? =
              some ("Pixel", pixelCol) :=
            getElem?_zero_setCol_of_head h0
              (fun he => isAscFile_ne_pixel hasc he.symm)
          have hnr : nrows df = 1024 := by
            rw [nrows_of_head h0, pixelCol_length]
          have hmidlen : ∀ c ∈ setCol df e.1 (alignRows (nrows df) vcol),
              c.2.length = 1024 := by
            intro c hc
            rcases mem_setCol hc with hcd | rfl
            · exact hlen c hcd
            · show (alignRows (nrows df) vcol).length = 1024
              rw [length_alignRows, hnr]
          exact ih _ hmid0 hmidlen out hout
    · rw [if_neg hasc, pure_bind] at hout
      exact ih df h0 hlen out hout

/-- The subtraction fold only ever extends the table beyond its original
columns: the first `t.length` columns stay exactly `t`, every column keeps
1025 rows, and the head (`Pixel`) column is untouched. -/
theorem subtract_fold_preserves (t : Table) (hne : t ≠ [])
    (hfresh : ∀ c ∈ t, ∀ k, k < t.length - 2 → c.1 ≠ runName (k + 1)) :
    ∀ l : List Nat, (∀ k ∈ l, k < t.length - 2) →
      ∀ cur, cur.take t.length = t → (∀ c ∈ cur, c.2.length = 1025) →
        cur[0]? = t[0]? →
      ∀ out, l.foldlM subtractStep cur = .ok out →
        out.take t.length = t ∧ (∀ c ∈ out, c.2.length = 1025) ∧ out[0]? = t[0]? := by
  intro l
  induction l with
  | nil =>
    intro _ cur h1 h2 h3 out hout
    cases hout
    exact ⟨h1, h2, h3⟩
  | cons k l ih =>
    intro hl cur h1 h2 h3 out hout
    rw [List.foldlM_cons] at hout
    unfold subtractStep at hout
    cases hrc : runColumn cur (k + 1) with
    | error err =>
      rw [hrc, error_bind, error_bind] at hout
      exact Except.noConfusion hout
    | ok vals =>
      rw [hrc, ok_bind, pure_bind] at hout
      have hk : k < t.length - 2 := hl k (by simp)
      have hfr : ∀ c ∈ t, c.1 ≠ runName (k + 1) := fun c hc => hfresh c hc k hk
      have hcur : cur = t ++ cur.drop t.length := by
        conv_lhs => rw [← List.take_append_drop t.length cur]
        rw [h1]
      have h0pos : 0 < t.length := List.length_pos.mpr hne
      have hset : ∀ cells, setCol cur (runName (k + 1)) cells =
          t ++ setCol (cur.drop t.length) (runName (k + 1)) cells := by
        intro cells
        conv_lhs => rw [hcur]
        exact setCol_append_of_not_mem _ hfr
      have hnr : nrows cur = 1025 := by
        obtain ⟨c0, hc0⟩ : ∃ c0, t[0]? = some c0 := by
          cases t with
          | nil => exact absurd rfl hne
          | cons c t => exact ⟨c, List.getElem?_cons_zero⟩
        have hc0cur : c0 ∈ cur := List.getElem?_mem (h3 ▸ hc0)
        rw [nrows_of_head (h3.trans hc0)]
        exact h2 c0 hc0cur
      apply ih (fun x hx => hl x (by simp [hx])) _ ?_ ?_ ?_ out hout
      · rw [hset]
        exact List.take_left' rfl
      · intro c hc
        rw [hset] at hc
        rcases List.mem_append.mp hc with hct | hcs
        · exact h2 c (List.mem_of_mem_take (h1 ▸ hct))
        · rcases mem_setCol hcs with hcd | rfl
          · exact h2 c (List.mem_of_mem_drop hcd)
          · show (alignRows (nrows cur) vals).length = 1025
            rw [length_alignRows, hnr]
      · rw [hset, List.getElem?_append_left h0pos]

theorem add_run_numbers_error {df : Table} (h : df.length < 2) :
    add_run_numbers df = .error "ValueError" := by
  simp only [add_run_numbers]
  rw [if_neg]
  simp only [List.length_append, List.length_cons, List.length_nil,
    List.length_map, List.length_range]
  omega

theorem add_run_numbers_inv {df t : Table}
    (h0 : df[0]? = some ("Pixel", pixelCol))
    (hlen : ∀ c ∈ df, c.2.length = 1024)
    (h : add_run_numbers df = .ok t) : TableInv t := by
  have hdfpos : 0 < df.length := getElem?_zero_of_head h0
  by_cases hc2 : 2 ≤ df.length
  case neg =>
    rw [add_run_numbers_error (by omega)] at h
    exact Except.noConfusion h
  case pos =>
    rw [add_run_numbers_ok hc2] at h
    injection h with ht
    subst ht
    have hlen0 : ([none, some (Val.str "BG")] ++ (List.range (df.length - 2)).map
        (fun k => some (Val.num ((k + 1 : ℕ) : ℚ)))).length = df.length := by
      simp only [List.length_append, List.length_cons, List.length_nil,
        List.length_map, List.length_range]
      omega
    have ht0 : (List.zipWith (fun rn c => (c.1, rn :: c.2))
        ([none, some (Val.str "BG")] ++ (List.range (df.length - 2)).map
          (fun k => some (Val.num ((k + 1 : ℕ) : ℚ)))) df)[0]? =
        some ("Pixel", none :: pixelCol) := by
      rw [List.getElem?_zipWith, rn_getElem 0 hdfpos, h0]
      rfl
    refine ⟨?_, ?_, ?_, ?_⟩
    · intro hnil
      have := congrArg List.length hnil
      simp only [List.length_zipWith, hlen0, Nat.min_self, List.length_nil] at this
      omega
    · intro c hc
      obtain ⟨j, hj⟩ := List.mem_iff_getElem?.mp hc
      rw [List.getElem?_zipWith] at hj
      cases hrn : ([none, some (Val.str "BG")] ++ (List.range (df.length - 2)).map
          (fun k => some (Val.num ((k + 1 : ℕ) : ℚ))))[j]? with
      | none =>
        rw [hrn] at hj
        cases hdf : df[j]? <;> rw [hdf] at hj <;> exact Option.noConfusion hj
      | some rn =>
        rw [hrn] at hj
        cases hdf : df[j]? with
        | none => rw [hdf] at hj; exact Option.noConfusion hj
        | some cj =>
          rw [hdf] at hj
          injection hj with hj
          rw [← hj]
          show (rn :: cj.2).length = 1025
          rw [List.length_cons, hlen cj (List.getElem?_mem hdf)]
    · unfold cellAt
      rw [colAt_zero_of_head ht0]
      show (((none :: pixelCol))[0]?).join = none
      rw [List.getElem?_cons_zero]
      exact rfl
    · intro r hr1 hr2
      unfold cellAt
      rw [colAt_zero_of_head ht0]
      exact join_pixel_cons hr1 hr2

/-- Claim C8: once the label row has been added, every experiment table
satisfies `TableInv` — 1025 rows (one label row plus 1024 data rows) in
every column, `Pixel` data rows `1..1024` in order — and both
`subtract_background` and `get_averaged_data_column` preserve it while only
ever appending columns at the end: the original columns survive, in order
and unchanged, as a prefix of the result. -/
theorem C8_invariant :
    (∀ (d : Directory) (t : Table), iterate_over_runs d = .ok t → TableInv t) ∧
    (∀ (t t' : Table) (n : Nat), TableInv t →
      (∀ c ∈ t, ∀ k, k < t.length - 2 → c.1 ≠ runName (k + 1)) →
      subtract_background t = .ok (t', n) →
      t'.take t.length = t ∧ TableInv t') ∧
    (∀ (t : Table) (n : Nat), TableInv t → (∀ c ∈ t, c.1 ≠ "Mean") →
      (get_averaged_data_column t n).take t.length = t ∧
      TableInv (get_averaged_data_column t n)) := by
  refine ⟨?_, ?_, ?_⟩
  · intro d t hd
    have hd' : (d.foldlM (fun df entry =>
        if isAscFile entry.1 then do
          let asc ← asc_read entry.2
          let vcol ← getCol asc 1
          pure (setCol df entry.1 (alignRows (nrows df) vcol))
        else pure df) [("Pixel", pixelCol)] >>=
          fun df => add_run_numbers df) = .ok t := hd
    cases hf : d.foldlM (fun df entry =>
        if isAscFile entry.1 then do
          let asc ← asc_read entry.2
          let vcol ← getCol asc 1
          pure (setCol df entry.1 (alignRows (nrows df) vcol))
        else pure df) [("Pixel", pixelCol)] with
    | error e =>
      rw [hf, error_bind] at hd'
      exact Except.noConfusion hd'
    | ok df =>
      rw [hf, ok_bind] at hd'
      obtain ⟨h0, hlen⟩ := iterate_fold_inv d [("Pixel", pixelCol)]
        List.getElem?_cons_zero
        (by
          intro c hc
          rw [List.mem_singleton.mp hc]
          exact pixelCol_length)
        df hf
      exact add_run_numbers_inv h0 hlen hd'
  · intro t t' n hInv hfresh hsub
    obtain ⟨hne, hrows, hc00, hc0r⟩ := hInv
    have hsub' : ((List.range (t.length - 2)).foldlM subtractStep t >>=
        fun x => pure (x, t.length - 2)) = .ok (t', n) := hsub
    cases hf : (List.range (t.length - 2)).foldlM subtractStep t with
    | error e =>
      rw [hf, error_bind] at hsub'
      exact Except.noConfusion hsub'
    | ok out =>
      rw [hf, ok_bind] at hsub'
      injection hsub' with hpair
      have hout : out = t' := congrArg Prod.fst hpair
      subst hout
      obtain ⟨ht1, ht2, ht3⟩ := subtract_fold_preserves t hne hfresh _
        (fun k hk => List.mem_range.mp hk) t (List.take_length t) hrows rfl out hf
      have hcol : colAt out 0 = colAt t 0 := by
        unfold colAt
        rw [ht3]
      refine ⟨ht1, ?_, ht2, ?_, ?_⟩
      · intro hnil
        rw [hnil] at ht1
        exact hne (by simpa using ht1.symm)
      · unfold cellAt
        rw [hcol]
        exact hc00
      · intro r hr1 hr2
        unfold cellAt
        rw [hcol]
        exact hc0r r hr1 hr2
  · intro t n hInv hmean
    obtain ⟨hne, hrows, hc00, hc0r⟩ := hInv
    obtain ⟨mcol, hg, hmlen⟩ := get_averaged_append t n hmean
    rw [hg]
    have h0pos : 0 < t.length := List.length_pos.mpr hne
    refine ⟨List.take_left' rfl, ?_, ?_, ?_, ?_⟩
    · intro hnil
      have := congrArg List.length hnil
      simp only [List.length_append, List.length_cons, List.length_nil] at this
      omega
    · intro c hc
      rcases List.mem_append.mp hc with hct | hcm
      · exact hrows c hct
      · rw [List.mem_singleton.mp hcm]
        show mcol.length = 1025
        rw [hmlen]
        exact nrows_eq hne hrows
    · unfold cellAt
      rw [colAt_append _ h0pos]
      exact hc00
    · intro r hr1 hr2
      unfold cellAt
      rw [colAt_append _ h0pos]
      exact hc0r r hr1 hr2

theorem oneRunTable_inv : TableInv oneRunTable := by
  refine ⟨by simp [oneRunTable], ?_, ?_, ?_⟩
  · intro c hc
    simp only [oneRunTable, List.mem_cons, List.not_mem_nil, or_false] at hc
    rcases hc with rfl | rfl
    · show (none :: pixelCol).length = 1025
      rw [List.length_cons, pixelCol_length]
    · simp
  · unfold cellAt
    rw [colAt_zero_of_head (show oneRunTable[0]? = some ("Pixel", none :: pixelCol)
      from List.getElem?_cons_zero)]
    rw [List.getElem?_cons_zero]
    exact rfl
  · intro r hr1 hr2
    unfold cellAt
    rw [colAt_zero_of_head (show oneRunTable[0]? = some ("Pixel", none :: pixelCol)
      from List.getElem?_cons_zero)]
    exact join_pixel_cons hr1 hr2

/-- Closed witness for `C8_invariant` (the averaging part, at `oneRunTable`). -/
theorem C8_invariant_witness :
    (get_averaged_data_column oneRunTable 1).take oneRunTable.length = oneRunTable ∧
    TableInv (get_averaged_data_column oneRunTable 1) :=
  C8_invariant.2.2 oneRunTable 1 oneRunTable_inv (by
    intro c hc
    simp only [oneRunTable, List.mem_cons, List.not_mem_nil, or_false] at hc
    rcases hc with rfl | rfl <;> decide)

theorem dfRowMean_getElem_fallback (sel : Table) (N r : Nat) (hr : r < N)
    (hany : sel.any colHasStr = true) :
    (dfRowMean sel N)[r]? =
      some (rowMean ((sel.filter (fun c => !colHasStr c)).map
        (fun c => ((c.2[r]?).join)))) := by
  unfold dfRowMean
  rw [if_pos hany]
  rw [List.getElem?_map, List.getElem?_range hr]
  rfl

/-- In the one-run case the width is 2, `number_of_runs` is 0, so
`iloc[:, 0:]` selects every column; the mean's first attempt hits the `BG`
label string and pandas falls back to the numeric-dtype columns — only
`Pixel`, since the label row upcast the raw run column to `object` — so the
appended `Mean` equals the `Pixel` value at each data row. -/
theorem one_run_fallback_mean (t : Table) (ht : t.length = 2)
    (hrows : ∀ c ∈ t, c.2.length = 1025)
    (hbg : cellAt t 1 0 = some (Val.str "BG"))
    (hpix : ∀ cell ∈ colAt t 0, cellIsStr cell = false)
    (hpixval : ∀ r : Nat, 1 ≤ r → r ≤ 1024 → cellAt t 0 r = some (Val.num (r : ℚ)))
    (hmean : ∀ c ∈ t, c.1 ≠ "Mean") :
    subtract_background t = .ok (t, 0) ∧
    ∀ r : Nat, 1 ≤ r → r ≤ 1024 →
      cellAt (get_averaged_data_column t 0) 2 r = some (Val.num (r : ℚ)) := by
  constructor
  · show ((List.range (t.length - 2)).foldlM subtractStep t >>=
      fun x => pure (x, t.length - 2)) = .ok (t, 0)
    rw [show t.length - 2 = 0 from by omega]
    exact rfl
  · intro r hr1 hr2
    have hg : get_averaged_data_column t 0 = t ++ [("Mean", dfRowMean t (nrows t))] := by
      show setCol t "Mean" (dfRowMean t (nrows t)) = _
      exact setCol_of_not_mem _ hmean
    match t, ht, hrows, hbg, hpix, hpixval, hg with
    | [c0, c1], _, hrows, hbg, hpix, hpixval, hg =>
      have hc0 : colAt [c0, c1] 0 = c0.2 := colAt_zero_of_head List.getElem?_cons_zero
      have hc1 : colAt [c0, c1] 1 = c1.2 := by
        unfold colAt
        rw [show ([c0, c1][1]?) = some c1 from by
          rw [List.getElem?_cons_succ]; exact List.getElem?_cons_zero]
        exact rfl
      have hstr1 : colHasStr c1 = true := by
        have hcell : (c1.2[0]?).join = some (Val.str "BG") := by
          rw [← hc1]
          exact hbg
        rw [Option.join_eq_some] at hcell
        unfold colHasStr
        rw [List.any_eq_true]
        exact ⟨some (Val.str "BG"), List.getElem?_mem hcell, rfl⟩
      have hstr0 : colHasStr c0 = false := by
        unfold colHasStr
        rw [List.any_eq_false]
        intro cell hcell
        rw [hpix cell (hc0 ▸ hcell)]
        simp
      have hany : ([c0, c1] : Table).any colHasStr = true := by
        simp [hstr1]
      have hfil : (([c0, c1] : Table).filter (fun c => !colHasStr c)) = [c0] := by
        rw [List.filter_cons_of_pos (by rw [hstr0]; rfl),
          List.filter_cons_of_neg (by rw [hstr1]; simp), List.filter_nil]
      have hnr : nrows [c0, c1] = 1025 := by
        rw [nrows_of_head (show ([c0, c1] : Table)[0]? = some c0 from
          List.getElem?_cons_zero)]
        exact hrows c0 (by simp)
      rw [hg, show (2 : Nat) = ([c0, c1] : Table).length from rfl,
        cellAt_append_singleton,
        dfRowMean_getElem_fallback _ (nrows [c0, c1]) r (by rw [hnr]; omega) hany,
        hfil]
      have hval : (c0.2[r]?).join = some (Val.num (r : ℚ)) := by
        rw [← hc0]
        exact hpixval r hr1 hr2
      show rowMean [((c0.2[r]?).join)] = some (Val.num (r : ℚ))
      rw [hval]
      show some (Val.num (List.sum [(r : ℚ)] / ((1 : ℕ) : ℚ))) = some (Val.num (r : ℚ))
      norm_num

theorem oneRunTable_bg : cellAt oneRunTable 1 0 = some (Val.str "BG") := by
  show ((some (Val.str "BG") :: List.replicate 1024 (some (Val.num 10)))[0]?).join =
    some (Val.str "BG")
  rw [List.getElem?_cons_zero]
  exact rfl

theorem oneRunTable_pix : ∀ cell ∈ colAt oneRunTable 0, cellIsStr cell = false := by
  intro cell hcell
  have hc : colAt oneRunTable 0 = none :: pixelCol :=
    colAt_zero_of_head List.getElem?_cons_zero
  rw [hc] at hcell
  rcases List.mem_cons.mp hcell with rfl | hp
  · rfl
  · obtain ⟨i, _, rfl⟩ := List.mem_map.mp hp
    rfl

theorem oneRunTable_mean_fresh : ∀ c ∈ oneRunTable, c.1 ≠ "Mean" := by
  intro c hc
  simp only [oneRunTable, List.mem_cons, List.not_mem_nil, or_false] at hc
  rcases hc with rfl | rfl <;> decide

/-- Claim C10, amended: when `subtract_background` creates zero columns (a
one-run experiment folder, `number_of_runs = 0`), `iloc[:, 0:]` selects
every column of the table, but the row-wise mean's first attempt raises on
the `BG` label string and pandas falls back to the numeric-dtype columns
only; the raw run column was upcast to `object` dtype by the label row, so
the appended `Mean` equals the `Pixel` column on data rows:
`Mean[r] = Pixel[r] = r` — not `(Pixel[r] + raw_run[1][r]) / 2`. -/
theorem C10_one_run_mean_is_pixel (t : Table) (ht : t.length = 2)
    (hrows : ∀ c ∈ t, c.2.length = 1025)
    (hbg : cellAt t 1 0 = some (Val.str "BG"))
    (hpix : ∀ cell ∈ colAt t 0, cellIsStr cell = false)
    (hpixval : ∀ r : Nat, 1 ≤ r → r ≤ 1024 → cellAt t 0 r = some (Val.num (r : ℚ)))
    (hmean : ∀ c ∈ t, c.1 ≠ "Mean") :
    subtract_background t = .ok (t, 0) ∧
    ∀ r : Nat, 1 ≤ r → r ≤ 1024 →
      cellAt (get_averaged_data_column t 0) 2 r = some (Val.num (r : ℚ)) :=
  one_run_fallback_mean t ht hrows hbg hpix hpixval hmean

/-- Counterexample to C10 as stated: on the one-run table
`oneRunTable` (Pixel, background run of constant 10), the `Mean` at data
row 1 is `1` (the Pixel value) and not `(1 + 10) / 2` as the claim's
formula predicts. -/
theorem C10_counterexample :
    subtract_background oneRunTable = .ok (oneRunTable, 0) ∧
    cellAt (get_averaged_data_column oneRunTable 0) 2 1 = some (Val.num 1) ∧
    cellAt (get_averaged_data_column oneRunTable 0) 2 1 ≠
      some (Val.num ((1 + 10) / 2 : ℚ)) := by
  have h := one_run_fallback_mean oneRunTable rfl oneRunTable_inv.2.1 oneRunTable_bg
    oneRunTable_pix oneRunTable_inv.2.2.2 oneRunTable_mean_fresh
  have h1 := h.2 1 (by omega) (by omega)
  refine ⟨h.1, ?_, ?_⟩
  · simpa using h1
  · rw [h1]
    simp only [ne_eq, Option.some.injEq, Val.num.injEq]
    norm_num

/-- Closed witness for `C10_one_run_mean_is_pixel`, at `oneRunTable`. -/
theorem C10_one_run_mean_is_pixel_witness :
    subtract_background oneRunTable = .ok (oneRunTable, 0) ∧
    ∀ r : Nat, 1 ≤ r → r ≤ 1024 →
      cellAt (get_averaged_data_column oneRunTable 0) 2 r =
        some (Val.num (r : ℚ)) :=
  C10_one_run_mean_is_pixel oneRunTable rfl oneRunTable_inv.2.1 oneRunTable_bg
    oneRunTable_pix oneRunTable_inv.2.2.2 oneRunTable_mean_fresh
